import Mathlib

/-!
Verification of the MicroAPRS AFSK1200 modem core (`src/Modem/afsk.c`).

A shallow embedding of the modem core: the quarter-wave sine generator,
the HDLC deframer (`hdlcParse`), the receive DSP callback (`afsk_adc_isr`),
the transmit start (`afsk_txStart`) and the DAC callback (`afsk_dac_isr`).

Machine integers are modelled as `Nat` (unsigned registers, reduced
`% 256` exactly where the C type is `uint8_t` and a shift can overflow)
or as `Int` (signed quantities).  The IIR taps and `curr_phase` are kept
as unbounded `Int`: their widths are declared in a header that only says
they are signed and wide enough to hold the intermediate values.
Arithmetic shift right on signed values is floor division by a power of
two (`sar`).  FIFOs are lists with an explicit capacity; the C code
checks `fifo_isfull` / `fifo_isempty` before every push/pop, and the
embedding mirrors those guards.
-/

namespace Afsk1200

/-- Rounded integer division, `DIV_ROUND(x, y)` from BertOS. -/
def DIV_ROUND (x y : Nat) : Nat := (x + y / 2) / y

/-- Length of a full sine wave period; the table stores one quarter. -/
def SIN_LEN : Nat := 512

def HDLC_FLAG : Nat := 0x7E
def HDLC_RESET : Nat := 0x7F
def AX25_ESC : Nat := 0x1B

def MARK_FREQ : Nat := 1200
def SPACE_FREQ : Nat := 2200
def CONFIG_AFSK_DAC_SAMPLERATE : Nat := 9600
def BITRATE : Nat := 1200
def SAMPLESPERBIT : Nat := 8

def MARK_INC : Nat := DIV_ROUND (SIN_LEN * MARK_FREQ) CONFIG_AFSK_DAC_SAMPLERATE
def SPACE_INC : Nat := DIV_ROUND (SIN_LEN * SPACE_FREQ) CONFIG_AFSK_DAC_SAMPLERATE
def DAC_SAMPLESPERBIT : Nat := CONFIG_AFSK_DAC_SAMPLERATE / BITRATE

def PHASE_BIT : Nat := 8
def PHASE_INC : Nat := 1
def PHASE_MAX : Nat := SAMPLESPERBIT * PHASE_BIT
def PHASE_THRES : Nat := PHASE_MAX / 2

/-- The quarter-wave sine table `sin_table` (128 read-only bytes). -/
def sin_table : List Nat :=
  [128, 129, 131, 132, 134, 135, 137, 138, 140, 142, 143, 145, 146, 148, 149, 151,
   152, 154, 155, 157, 158, 160, 162, 163, 165, 166, 167, 169, 170, 172, 173, 175,
   176, 178, 179, 181, 182, 183, 185, 186, 188, 189, 190, 192, 193, 194, 196, 197,
   198, 200, 201, 202, 203, 205, 206, 207, 208, 210, 211, 212, 213, 214, 215, 217,
   218, 219, 220, 221, 222, 223, 224, 225, 226, 227, 228, 229, 230, 231, 232, 233,
   234, 234, 235, 236, 237, 238, 238, 239, 240, 241, 241, 242, 243, 243, 244, 245,
   245, 246, 246, 247, 248, 248, 249, 249, 250, 250, 250, 251, 251, 252, 252, 252,
   253, 253, 253, 253, 254, 254, 254, 254, 254, 255, 255, 255, 255, 255, 255, 255]

/-- Function `sinSample` from `afsk.c`: reconstruct a full sine period from the
quarter-wave table.  `newI = i % (SIN_LEN/2)`; the second quadrant is
mirrored with index `SIN_LEN/2 - newI - 1`; the second half cycle is
complemented (`255 - sine`). -/
def sinSample (i : Nat) : Nat :=
  let newI := i % (SIN_LEN / 2)
  let newI := if SIN_LEN / 4 ≤ newI then SIN_LEN / 2 - newI - 1 else newI
  let sine := sin_table.getD newI 0
  if SIN_LEN / 2 ≤ i then 255 - sine else sine

/-- The sample generator exactly as claim C1 words it: the folded value
is `i mod 256`; when it is `≥ 128` the table index is `255 − folded − 1`;
otherwise the folded value itself; for `i ≥ 256` the looked-up sample is
complemented.  (Written from the claim, to be compared with `sinSample`.) -/
def sinSampleClaimC1 (i : Nat) : Nat :=
  let folded := i % 256
  let idx := if 128 ≤ folded then 255 - folded - 1 else folded
  let sine := sin_table.getD idx 0
  if 256 ≤ i then 255 - sine else sine

/-- The amended generator description: identical to claim C1 except that
the mirrored index in the second quadrant is `256 − folded − 1`
(equivalently `255 − folded`), matching `SIN_LEN/2 − newI − 1` in the
source. -/
def sinSampleAmendedC1 (i : Nat) : Nat :=
  let folded := i % 256
  let idx := if 128 ≤ folded then 256 - folded - 1 else folded
  let sine := sin_table.getD idx 0
  if 256 ≤ i then 255 - sine else sine

/-- C1 counterexample: at phase index 254 the code mirrors to table
index `256 − 254 − 1 = 1` (sample 129), while the claim's formula
`255 − folded − 1` gives index 0 (sample 128).  The claimed description
of `sinSample` is therefore false at `i = 254`. -/
theorem sinSample_claimC1_false : sinSample 254 = 129 ∧ sinSampleClaimC1 254 = 128 := by
  decide

set_option maxRecDepth 4096 in
/-- C1 (amended): for every phase index `i < 512`, `sinSample` folds `i`
to `i mod 256`, uses `256 − folded − 1` (i.e. `255 − folded`) as the
quarter-wave table index when the folded value is `≥ 128` and the folded
value itself otherwise, and returns `255` minus the looked-up sample when
`i ≥ 256`. -/
theorem sinSample_eq_amendedC1 (i : Nat) (h : i < 512) :
    sinSample i = sinSampleAmendedC1 i := by
  revert h
  revert i
  decide

/-- Witness for the amended C1 theorem at the concrete index 300. -/
theorem sinSample_eq_amendedC1_witness :
    sinSample 300 = sinSampleAmendedC1 300 :=
  sinSample_eq_amendedC1 300 (by decide)

/-! FIFO byte queues (`struct/fifobuf.h`).

A bounded FIFO is a list of queued bytes plus its capacity.  The source
always guards pushes with `fifo_isfull` and pops with `fifo_isempty`,
and the embedding keeps exactly those guards at the call sites. -/

structure Fifo where
  buf : List Nat
  cap : Nat
  deriving Repr, DecidableEq

def fifo_isfull (f : Fifo) : Bool := f.cap ≤ f.buf.length

def fifo_push (f : Fifo) (b : Nat) : Fifo := { f with buf := f.buf ++ [b] }

/-! The HDLC deframer (`hdlcParse`). -/

/-- HDLC deframer state (`Hdlc` in `afsk.h`): `demod_bits` and
`currchar` are `uint8_t` registers, `bit_idx` the fill count. -/
structure Hdlc where
  demod_bits : Nat
  bit_idx : Nat
  currchar : Nat
  rxstart : Bool
  deriving Repr, DecidableEq

/-- The updated rolling register: `demod_bits <<= 1; demod_bits |= bit`,
on a `uint8_t` (so the shift wraps modulo 256). -/
def demodNext (d : Nat) (bit : Bool) : Nat :=
  ((d <<< 1) % 256) ||| (if bit then 1 else 0)

/-- Result of one `hdlcParse` call.  `ret` is the C return value; the
extra `dropped` field is a ghost counter of pushes that were skipped
because the RX queue was full (it drives no behaviour). -/
structure HdlcResult where
  ret : Bool
  hdlc : Hdlc
  fifo : Fifo
  dropped : Nat
  deriving Repr, DecidableEq
/-- Final push of a completed byte (`if (!fifo_isfull(fifo)) fifo_push(fifo,
hdlc->currchar) else ...` in `afsk.c`): `ret`, `rxstart` and `drop` carry the
outcome of the preceding escape-prefix stage; afterwards `currchar` and
`bit_idx` are reset. -/
def hdlcPushChar (h : Hdlc) (fifo : Fifo) (ret : Bool) (rxstart : Bool) (drop : Nat) : HdlcResult :=
  if fifo_isfull fifo = false then
    { ret := ret, hdlc := { h with rxstart := rxstart, currchar := 0, bit_idx := 0 },
      fifo := fifo_push fifo h.currchar, dropped := drop }
  else
    { ret := false, hdlc := { h with rxstart := false, currchar := 0, bit_idx := 0 },
      fifo := fifo, dropped := drop + 1 }

/-- Completion of an eight-bit byte (`if (++hdlc->bit_idx >= 8)` body in
`afsk.c`): bytes equal to `HDLC_FLAG`, `HDLC_RESET` or `AX25_ESC` get a
literal `AX25_ESC` pushed first; a full queue at either push clears
`rxstart` and forces a `false` return. -/
def hdlcComplete (h : Hdlc) (fifo : Fifo) : HdlcResult :=
  if h.currchar = HDLC_FLAG ∨ h.currchar = HDLC_RESET ∨ h.currchar = AX25_ESC then
    if fifo_isfull fifo = false then
      hdlcPushChar h (fifo_push fifo AX25_ESC) true h.rxstart 0
    else
      hdlcPushChar h fifo false false 1
  else
    hdlcPushChar h fifo true h.rxstart 0

/-- Data-bit step of the deframer: after the new bit was ORed into
`currchar`, either the byte completes (`bit_idx` reaches 8) or `bit_idx`
advances and `currchar` shifts right for the next LSB-first bit. -/
def hdlcData (h : Hdlc) (fifo : Fifo) : HdlcResult :=
  if 8 ≤ h.bit_idx + 1 then
    hdlcComplete h fifo
  else
    { ret := true,
      hdlc := { h with bit_idx := h.bit_idx + 1, currchar := h.currchar >>> 1 },
      fifo := fifo, dropped := 0 }

/-- Pattern dispatch of the deframer on the updated `demod_bits`: flag
(`0x7E`), reset (low seven bits all ones), unsynchronized, stuffed bit
(low six bits `0x3E`), or a data bit. -/
def hdlcFrame (h : Hdlc) (fifo : Fifo) : HdlcResult :=
  if h.demod_bits = HDLC_FLAG then
    if fifo_isfull fifo = false then
      { ret := true, hdlc := { h with rxstart := true, currchar := 0, bit_idx := 0 },
        fifo := fifo_push fifo HDLC_FLAG, dropped := 0 }
    else
      { ret := false, hdlc := { h with rxstart := false, currchar := 0, bit_idx := 0 },
        fifo := fifo, dropped := 1 }
  else if h.demod_bits &&& HDLC_RESET = HDLC_RESET then
    { ret := true, hdlc := { h with rxstart := false }, fifo := fifo, dropped := 0 }
  else if h.rxstart = false then
    { ret := true, hdlc := h, fifo := fifo, dropped := 0 }
  else if h.demod_bits &&& 0x3f = 0x3e then
    { ret := true, hdlc := h, fifo := fifo, dropped := 0 }
  else
    hdlcData
      { h with currchar := if h.demod_bits &&& 0x01 = 1 then h.currchar ||| 0x80 else h.currchar }
      fifo

/-- Function `hdlcParse` from `afsk.c`: shift the new logical bit into the
rolling `demod_bits` register and dispatch on the observed pattern.
The `dropped` field of the result is a ghost counter of pushes skipped
because the RX queue was full (it drives no behaviour). -/
def hdlcParse (h : Hdlc) (bit : Bool) (fifo : Fifo) : HdlcResult :=
  hdlcFrame { h with demod_bits := demodNext h.demod_bits bit } fifo

theorem hdlcPushChar_dropped (h : Hdlc) (fifo : Fifo) (ret rxstart : Bool) (drop : Nat)
    (hcarry : 0 < drop → ret = false ∧ rxstart = false)
    (hd : 0 < (hdlcPushChar h fifo ret rxstart drop).dropped) :
    (hdlcPushChar h fifo ret rxstart drop).ret = false ∧
    (hdlcPushChar h fifo ret rxstart drop).hdlc.rxstart = false := by
  unfold hdlcPushChar at *
  split_ifs at * <;> simp_all

theorem hdlcComplete_dropped (h : Hdlc) (fifo : Fifo)
    (hd : 0 < (hdlcComplete h fifo).dropped) :
    (hdlcComplete h fifo).ret = false ∧ (hdlcComplete h fifo).hdlc.rxstart = false := by
  unfold hdlcComplete at *
  split_ifs at * <;>
    exact hdlcPushChar_dropped _ _ _ _ _ (by simp) hd

/-- Helper: whenever `hdlcParse` skipped at least one push because the
queue was full, it returns `false` and leaves `rxstart` cleared. -/
theorem hdlcParse_dropped_ret (h : Hdlc) (bit : Bool) (fifo : Fifo)
    (hd : 0 < (hdlcParse h bit fifo).dropped) :
    (hdlcParse h bit fifo).ret = false ∧ (hdlcParse h bit fifo).hdlc.rxstart = false := by
  unfold hdlcParse hdlcFrame hdlcData at *
  split_ifs at * <;> first
    | exact hdlcComplete_dropped _ _ hd
    | simp_all

/-- The completed byte at the end of a data-bit step: `currchar` with
`0x80` ORed in when the newest demodulated bit is one. -/
def completedByte (h : Hdlc) (bit : Bool) : Nat :=
  if demodNext h.demod_bits bit &&& 0x01 = 1 then h.currchar ||| 0x80 else h.currchar

/-- Shape lemma: under the data path with `bit_idx = 7`, one `hdlcParse`
step is exactly a byte completion on `completedByte`. -/
theorem hdlcParse_eq_complete (h : Hdlc) (bit : Bool) (fifo : Fifo)
    (h1 : demodNext h.demod_bits bit ≠ HDLC_FLAG)
    (h2 : demodNext h.demod_bits bit &&& HDLC_RESET ≠ HDLC_RESET)
    (h3 : h.rxstart = true)
    (h4 : demodNext h.demod_bits bit &&& 0x3f ≠ 0x3e)
    (h5 : h.bit_idx = 7) :
    hdlcParse h bit fifo =
      hdlcComplete
        { demod_bits := demodNext h.demod_bits bit, bit_idx := 7,
          currchar := completedByte h bit, rxstart := true } fifo := by
  unfold hdlcParse hdlcFrame hdlcData completedByte
  split_ifs <;> simp_all

theorem hdlcComplete_esc_room (h : Hdlc) (fifo : Fifo)
    (hres : h.currchar = HDLC_FLAG ∨ h.currchar = HDLC_RESET ∨ h.currchar = AX25_ESC)
    (hroom : fifo.buf.length + 2 ≤ fifo.cap) :
    (hdlcComplete h fifo).fifo.buf = fifo.buf ++ [AX25_ESC, h.currchar] ∧
    (hdlcComplete h fifo).ret = true := by
  have hf1 : fifo_isfull fifo = false := by simp [fifo_isfull]; omega
  have hf2 : fifo_isfull (fifo_push fifo AX25_ESC) = false := by
    simp [fifo_isfull, fifo_push]; omega
  unfold hdlcComplete hdlcPushChar
  rw [if_pos hres, if_pos hf1, if_pos hf2]
  simp [fifo_push]

theorem hdlcComplete_plain_room (h : Hdlc) (fifo : Fifo)
    (hres : ¬(h.currchar = HDLC_FLAG ∨ h.currchar = HDLC_RESET ∨ h.currchar = AX25_ESC))
    (hroom : fifo.buf.length < fifo.cap) :
    (hdlcComplete h fifo).fifo.buf = fifo.buf ++ [h.currchar] ∧
    (hdlcComplete h fifo).ret = true := by
  have hf1 : fifo_isfull fifo = false := by simp [fifo_isfull]; omega
  unfold hdlcComplete hdlcPushChar
  rw [if_neg hres, if_pos hf1]
  simp [fifo_push]

/-- C5: when the deframer completes an eight-bit byte (a data bit with
`bit_idx` at 7, no flag/reset/stuffed pattern), a byte equal to
`HDLC_FLAG`, `HDLC_RESET` or `AX25_ESC` is pushed with a literal
`AX25_ESC` immediately before it (given two free queue slots), and a
byte with any other value is pushed without the escape (given a free
slot). -/
theorem hdlcParse_escape_c5 (h : Hdlc) (bit : Bool) (fifo : Fifo)
    (h1 : demodNext h.demod_bits bit ≠ HDLC_FLAG)
    (h2 : demodNext h.demod_bits bit &&& HDLC_RESET ≠ HDLC_RESET)
    (h3 : h.rxstart = true)
    (h4 : demodNext h.demod_bits bit &&& 0x3f ≠ 0x3e)
    (h5 : h.bit_idx = 7) :
    (((completedByte h bit = HDLC_FLAG ∨ completedByte h bit = HDLC_RESET ∨
        completedByte h bit = AX25_ESC) →
      fifo.buf.length + 2 ≤ fifo.cap →
      (hdlcParse h bit fifo).fifo.buf = fifo.buf ++ [AX25_ESC, completedByte h bit] ∧
      (hdlcParse h bit fifo).ret = true) ∧
     (¬(completedByte h bit = HDLC_FLAG ∨ completedByte h bit = HDLC_RESET ∨
        completedByte h bit = AX25_ESC) →
      fifo.buf.length < fifo.cap →
      (hdlcParse h bit fifo).fifo.buf = fifo.buf ++ [completedByte h bit] ∧
      (hdlcParse h bit fifo).ret = true)) := by
  rw [hdlcParse_eq_complete h bit fifo h1 h2 h3 h4 h5]
  exact ⟨fun hres hroom => hdlcComplete_esc_room _ fifo hres hroom,
    fun hres hroom => hdlcComplete_plain_room _ fifo hres hroom⟩

/-- Witness for C5: completing the byte `0x00` (final bit 0, `bit_idx`
at 7) with one free slot pushes `0x00` unprefixed and returns true. -/
theorem hdlcParse_escape_c5_witness :
    (hdlcParse ⟨0x10, 7, 0, true⟩ false ⟨[], 1⟩).fifo.buf = [] ++ [completedByte ⟨0x10, 7, 0, true⟩ false] ∧
    (hdlcParse ⟨0x10, 7, 0, true⟩ false ⟨[], 1⟩).ret = true :=
  (hdlcParse_escape_c5 ⟨0x10, 7, 0, true⟩ false ⟨[], 1⟩
    (by decide) (by decide) (by decide) (by decide) (by decide)).2 (by decide) (by decide)

/-- C10: completing a byte that needs the escape prefix while the RX
queue has exactly one free slot pushes the `AX25_ESC` prefix but drops
the escaped byte itself: the queue ends with a dangling `AX25_ESC`, the
call returns `false` and `rxstart` is cleared. -/
theorem hdlcParse_danglingEsc_c10 (h : Hdlc) (bit : Bool) (fifo : Fifo)
    (h1 : demodNext h.demod_bits bit ≠ HDLC_FLAG)
    (h2 : demodNext h.demod_bits bit &&& HDLC_RESET ≠ HDLC_RESET)
    (h3 : h.rxstart = true)
    (h4 : demodNext h.demod_bits bit &&& 0x3f ≠ 0x3e)
    (h5 : h.bit_idx = 7)
    (h6 : completedByte h bit = HDLC_FLAG ∨ completedByte h bit = HDLC_RESET ∨
      completedByte h bit = AX25_ESC)
    (h7 : fifo.buf.length + 1 = fifo.cap) :
    (hdlcParse h bit fifo).fifo.buf = fifo.buf ++ [AX25_ESC] ∧
    (hdlcParse h bit fifo).ret = false ∧
    (hdlcParse h bit fifo).hdlc.rxstart = false := by
  rw [hdlcParse_eq_complete h bit fifo h1 h2 h3 h4 h5]
  have hf1 : fifo_isfull fifo = false := by simp [fifo_isfull]; omega
  have hf2 : fifo_isfull (fifo_push fifo AX25_ESC) = true := by
    simp [fifo_isfull, fifo_push]; omega
  unfold hdlcComplete hdlcPushChar
  rw [if_pos h6, if_pos hf1, if_neg (by simp [hf2] : ¬fifo_isfull (fifo_push fifo AX25_ESC) = false)]
  simp [fifo_push]

/-- Witness for C10: completing the byte `0x7E` with a single free slot
leaves a dangling escape, a failure return and `rxstart` cleared. -/
theorem hdlcParse_danglingEsc_c10_witness :
    (hdlcParse ⟨0x14, 7, 0x7E, true⟩ false ⟨[1], 2⟩).fifo.buf = [1] ++ [AX25_ESC] ∧
    (hdlcParse ⟨0x14, 7, 0x7E, true⟩ false ⟨[1], 2⟩).ret = false ∧
    (hdlcParse ⟨0x14, 7, 0x7E, true⟩ false ⟨[1], 2⟩).hdlc.rxstart = false :=
  hdlcParse_danglingEsc_c10 ⟨0x14, 7, 0x7E, true⟩ false ⟨[1], 2⟩
    (by decide) (by decide) (by decide) (by decide) (by decide) (by decide) (by decide)
/-! Receive DSP (`afsk_adc_isr`). -/

/-- Arithmetic shift right by `n` bits on a signed value: floor
division by `2 ^ n` (the behaviour of `>>` on the AVR target). -/
def sar (x : Int) (n : Nat) : Int := Int.fdiv x (2 ^ n)

/-- Storing a signed sample into the `uint8_t` delay buffer. -/
def toUint8 (x : Int) : Nat := (x % 256).toNat

/-- The signed cast `(int8_t)` applied to a byte popped from the delay buffer. -/
def toInt8 (n : Nat) : Int :=
  if n % 256 < 128 then (n % 256 : Int) else (n % 256 : Int) - 256

/-- Macro `EDGE_FOUND(bits)`: the two newest bits of a rolling register
differ (`((bits) ^ ((bits) >> 1)) & 0x01`). -/
def edgeFound (b : Nat) : Bool := (b ^^^ (b >>> 1)) &&& 0x01 = 1

/-- Majority vote over the last three sliced bits: patterns 111, 110,
101, 011 decide a one. -/
def majority3 (bits : Nat) : Bool :=
  bits = 0x07 ∨ bits = 0x06 ∨ bits = 0x05 ∨ bits = 0x03

/-- The compile-time IIR filter selection (`CONFIG_AFSK_FILTER`). -/
inductive FilterKind where
  | butterworth
  | chebyshev
  deriving Repr, DecidableEq

/-- The IIR output update of `afsk_adc_isr` for each configuration:
`y[n] = x[n-1] + x[n] + (y[n-1]>>1) + (y[n-1]>>3) + (y[n-1]>>5)`
(Butterworth) or `y[n] = x[n-1] + x[n] + (y[n-1]>>1)` (Chebyshev). -/
def iirY : FilterKind → Int → Int → Int → Int
  | .butterworth, x0, x1, y0 => x0 + x1 + sar y0 1 + sar y0 3 + sar y0 5
  | .chebyshev, x0, x1, y0 => x0 + x1 + sar y0 1

/-- The phase nudge and advance of `afsk_adc_isr`: on an edge move
`curr_phase` one step toward the window centre, then add `PHASE_BIT`. -/
def adcPhase (curr_phase : Int) (sampled_bits : Nat) : Int :=
  let p :=
    if edgeFound sampled_bits then
      if curr_phase < (PHASE_THRES : Int) then curr_phase + (PHASE_INC : Int)
      else curr_phase - (PHASE_INC : Int)
    else curr_phase
  p + (PHASE_BIT : Int)

/-- Demodulator state (`Afsk` in `afsk.h`, receive half).  The IIR taps
and `curr_phase` are signed; `sampled_bits`, `found_bits` are `uint8_t`
rolling registers.  `status_overrun` — modelled from the spec: `afsk.h`
(not in `src/`) defines `status` as a bitmask whose only defined bit is
the receive-FIFO overrun flag `AFSK_RXFIFO_OVERRUN`, so the word is
modelled as that single bit. -/
structure Afsk where
  delay_fifo : List Nat
  iir_x0 : Int
  iir_x1 : Int
  iir_y0 : Int
  iir_y1 : Int
  sampled_bits : Nat
  curr_phase : Int
  found_bits : Nat
  hdlc : Hdlc
  rx_fifo : Fifo
  status_overrun : Bool
  deriving Repr, DecidableEq

/-- Result of one ADC callback.  `dropped` (ghost) counts RX-queue
pushes the deframer skipped; `parse_ret` (ghost) records the deframer's
return value when a symbol was decided this sample. -/
structure AdcResult where
  af : Afsk
  dropped : Nat
  parse_ret : Option Bool
  deriving Repr, DecidableEq

/-- Function `afsk_adc_isr` from `afsk.c`: discriminate (delayed sample times
current sample, arithmetic shift right 2), IIR filter, slice (`y > 0`),
push the sample into the delay line, phase-lock, and — when the phase
counter reaches `PHASE_MAX` — wrap it, decide a symbol by majority vote,
NRZI-decode and feed the deframer, ORing the overrun flag into `status`
on a failed parse. -/
def afsk_adc_isr (k : FilterKind) (af : Afsk) (curr_sample : Int) : AdcResult :=
  let x0 := af.iir_x1
  let x1 := sar (toInt8 (af.delay_fifo.headD 0) * curr_sample) 2
  let y0 := af.iir_y1
  let y1 := iirY k x0 x1 y0
  let sampled_bits := ((af.sampled_bits <<< 1) % 256) ||| (if 0 < y1 then 1 else 0)
  let delay_fifo := af.delay_fifo.tail ++ [toUint8 curr_sample]
  let phase := adcPhase af.curr_phase sampled_bits
  if (PHASE_MAX : Int) ≤ phase then
    let found_bits := ((af.found_bits <<< 1) % 256) |||
      (if majority3 (sampled_bits &&& 0x07) then 1 else 0)
    let p := hdlcParse af.hdlc (!edgeFound found_bits) af.rx_fifo
    { af := { delay_fifo := delay_fifo, iir_x0 := x0, iir_x1 := x1, iir_y0 := y0,
              iir_y1 := y1, sampled_bits := sampled_bits,
              curr_phase := phase % (PHASE_MAX : Int), found_bits := found_bits,
              hdlc := p.hdlc, rx_fifo := p.fifo,
              status_overrun := af.status_overrun || !p.ret },
      dropped := p.dropped, parse_ret := some p.ret }
  else
    { af := { delay_fifo := delay_fifo, iir_x0 := x0, iir_x1 := x1, iir_y0 := y0,
              iir_y1 := y1, sampled_bits := sampled_bits, curr_phase := phase,
              found_bits := af.found_bits, hdlc := af.hdlc, rx_fifo := af.rx_fifo,
              status_overrun := af.status_overrun },
      dropped := 0, parse_ret := none }

/-- C4: for every ADC sample, the IIR update computes exactly
`y[n] = x[n] + x[n-1] + (y[n-1]>>1) + (y[n-1]>>3) + (y[n-1]>>5)` under
the Butterworth configuration and `y[n] = x[n] + x[n-1] + (y[n-1]>>1)`
under the Chebyshev configuration, where `x[n]` is the product of the
popped delay-line sample and the current sample, arithmetic-shifted
right by 2. -/
theorem adc_iir_c4 (af : Afsk) (s : Int) :
    (afsk_adc_isr .butterworth af s).af.iir_y1 =
      sar (toInt8 (af.delay_fifo.headD 0) * s) 2 + af.iir_x1 +
        sar af.iir_y1 1 + sar af.iir_y1 3 + sar af.iir_y1 5 ∧
    (afsk_adc_isr .chebyshev af s).af.iir_y1 =
      sar (toInt8 (af.delay_fifo.headD 0) * s) 2 + af.iir_x1 + sar af.iir_y1 1 := by
  constructor <;>
  · simp only [afsk_adc_isr, iirY]
    split_ifs <;> dsimp only <;> ring

/-- C9: one ADC callback keeps `curr_phase` inside `[0, PHASE_MAX)`:
the edge nudge moves it by one toward the centre, `PHASE_BIT = 8` is
always added, and on reaching `PHASE_MAX = 64` it is reduced modulo
`PHASE_MAX`. -/
theorem adc_phase_c9 (k : FilterKind) (af : Afsk) (s : Int)
    (h0 : 0 ≤ af.curr_phase) (h1 : af.curr_phase < 64) :
    0 ≤ (afsk_adc_isr k af s).af.curr_phase ∧
    (afsk_adc_isr k af s).af.curr_phase < 64 := by
  simp only [afsk_adc_isr, adcPhase, PHASE_MAX, PHASE_THRES, PHASE_BIT, PHASE_INC,
    SAMPLESPERBIT, Nat.cast_ofNat, Nat.reduceMul]
  split_ifs <;> dsimp only <;> omega

/-- Concrete receiver state used as a witness input for C9. -/
def afC9 : Afsk :=
  { delay_fifo := [0, 0, 0, 0], iir_x0 := 0, iir_x1 := 0, iir_y0 := 0, iir_y1 := 0,
    sampled_bits := 0, curr_phase := 0, found_bits := 0,
    hdlc := ⟨0, 0, 0, false⟩, rx_fifo := ⟨[], 4⟩, status_overrun := false }

/-- Witness for C9 at a concrete receiver state. -/
theorem adc_phase_c9_witness :
    0 ≤ (afsk_adc_isr .butterworth afC9 0).af.curr_phase ∧
    (afsk_adc_isr .butterworth afC9 0).af.curr_phase < 64 :=
  adc_phase_c9 .butterworth afC9 0 (by decide) (by decide)

/-- C3: whenever the ADC callback's deframer invocation skipped a push
because the RX queue was full, the deframer returned `false`, `rxstart`
is cleared (the frame is abandoned), and the overrun flag is set in
`status`: no byte is dropped without the overrun bit being set. -/
theorem adc_overrun_c3 (k : FilterKind) (af : Afsk) (s : Int)
    (hd : 0 < (afsk_adc_isr k af s).dropped) :
    (afsk_adc_isr k af s).parse_ret = some false ∧
    (afsk_adc_isr k af s).af.hdlc.rxstart = false ∧
    (afsk_adc_isr k af s).af.status_overrun = true := by
  simp only [afsk_adc_isr] at *
  split_ifs at * <;> dsimp only at hd ⊢ <;>
    first
      | exact absurd hd (by omega)
      | (obtain ⟨hr, hx⟩ := hdlcParse_dropped_ret _ _ _ hd
         try simp only [Nat.or_zero] at hr hx
         simp [hr, hx])

/-- Concrete receiver state for the C3 witness: a full two-byte RX
queue, with the demodulator one bit away from recognizing a flag and
the phase counter about to decide a symbol. -/
def afC3 : Afsk :=
  { delay_fifo := [0, 0, 0, 0], iir_x0 := 0, iir_x1 := 0, iir_y0 := 0, iir_y1 := 0,
    sampled_bits := 0, curr_phase := 56, found_bits := 1,
    hdlc := ⟨0x3F, 0, 0, false⟩, rx_fifo := ⟨[1, 2], 2⟩, status_overrun := false }

/-- Witness for C3: the flag byte cannot be pushed into the full RX
queue, so the callback reports the overrun. -/
theorem adc_overrun_c3_witness :
    (afsk_adc_isr .butterworth afC3 0).parse_ret = some false ∧
    (afsk_adc_isr .butterworth afC3 0).af.hdlc.rxstart = false ∧
    (afsk_adc_isr .butterworth afC3 0).af.status_overrun = true :=
  adc_overrun_c3 .butterworth afC3 0 (by decide)



/-! Transmit modulator (`afsk_txStart`, `afsk_dac_isr`). -/

def BIT_STUFF_LEN : Nat := 5

/-- Macro `SWITCH_TONE(inc)`: toggle between the mark and space phase
increments. -/
def switchTone (inc : Nat) : Nat := if inc = MARK_INC then SPACE_INC else MARK_INC

/-- Modulator state (`Afsk` in `afsk.h`, transmit half).  `tx_bit` is
the `uint8_t` bit mask (so `<<= 1` wraps to 0 after the MSB);
`dac_irq_on` models whether the DAC interrupt is armed
(`AFSK_DAC_IRQ_START`/`STOP`). -/
structure AfskTx where
  tx_fifo : List Nat
  sample_count : Nat
  tx_bit : Nat
  curr_out : Nat
  stuff_cnt : Nat
  bit_stuff : Bool
  preamble_len : Nat
  trailer_len : Nat
  sending : Bool
  dac_irq_on : Bool
  phase_acc : Nat
  phase_inc : Nat
  deriving Repr, DecidableEq

/-- Function `afsk_txStart` from `afsk.c`, with the configured preamble/trailer
durations (`CONFIG_AFSK_PREAMBLE_LEN`, `CONFIG_AFSK_TRAILER_LEN`, in
milliseconds, from the missing `config.h`) as parameters: when not
already sending, seed the DDS and stuffing state and arm the DAC
interrupt; in every call re-arm `trailer_len`. -/
def afsk_txStart (cfgPreamble cfgTrailer : Nat) (af : AfskTx) : AfskTx :=
  let af :=
    if af.sending = false then
      { af with
        phase_inc := MARK_INC, phase_acc := 0, stuff_cnt := 0, sending := true,
        preamble_len := DIV_ROUND (cfgPreamble * BITRATE) 8000, dac_irq_on := true }
    else af
  { af with trailer_len := DIV_ROUND (cfgTrailer * BITRATE) 8000 }

/-- The new-byte stage of `afsk_dac_isr` (the `af->tx_bit == 0` block):
returns the updated state and whether transmission stops (queue empty
with no trailer left, or an `AX25_ESC` with nothing following it). -/
def dacFetch (af : AfskTx) : AfskTx × Bool :=
  if af.tx_fifo = [] ∧ af.trailer_len = 0 then (af, true)
  else
    let af := if af.bit_stuff = false then { af with stuff_cnt := 0 } else af
    let af := { af with bit_stuff := true }
    let af :=
      if af.preamble_len = 0 then
        match af.tx_fifo with
        | [] => { af with trailer_len := af.trailer_len - 1, curr_out := HDLC_FLAG }
        | b :: rest => { af with curr_out := b, tx_fifo := rest }
      else
        { af with preamble_len := af.preamble_len - 1, curr_out := HDLC_FLAG }
    if af.curr_out = AX25_ESC then
      match af.tx_fifo with
      | [] => (af, true)
      | b :: rest => ({ af with curr_out := b, tx_fifo := rest }, false)
    else if af.curr_out = HDLC_FLAG ∨ af.curr_out = HDLC_RESET then
      ({ af with bit_stuff := false }, false)
    else (af, false)

/-- The per-symbol bit emission of `afsk_dac_isr`: either insert a
stuffed zero (reset `stuff_cnt`, switch tone, keep `tx_bit`), or emit
the current data bit (a one keeps the tone and counts it, a zero resets
the counter and switches tone; `tx_bit` advances).  The pair returned
alongside the state is (ghost) the emitted bit: (stuffed?, value). -/
def dacEmit (af : AfskTx) : AfskTx × Bool × Bool :=
  if af.bit_stuff = true ∧ BIT_STUFF_LEN ≤ af.stuff_cnt then
    ({ af with stuff_cnt := 0, phase_inc := switchTone af.phase_inc }, true, false)
  else if af.curr_out &&& af.tx_bit ≠ 0 then
    ({ af with stuff_cnt := af.stuff_cnt + 1, tx_bit := (af.tx_bit <<< 1) % 256 }, false, true)
  else
    ({ af with
        stuff_cnt := 0, phase_inc := switchTone af.phase_inc,
        tx_bit := (af.tx_bit <<< 1) % 256 }, false, false)

/-- Result of one DAC callback: new state, the returned sample (`out`),
the (ghost) logical bit emitted when a symbol step ran, and whether the
callback stopped transmission (returned 0 with the interrupt stopped). -/
structure DacOut where
  af : AfskTx
  out : Nat
  emitted : Option (Bool × Bool)
  stopped : Bool
  deriving Repr, DecidableEq

/-- The trailing DDS step of `afsk_dac_isr`: advance the phase
accumulator modulo `SIN_LEN`, decrement `sample_count` and output the
sine sample. -/
def dacDds (af : AfskTx) (e : Option (Bool × Bool)) : DacOut :=
  let pa := (af.phase_acc + af.phase_inc) % SIN_LEN
  { af := { af with phase_acc := pa, sample_count := af.sample_count - 1 },
    out := sinSample pa, emitted := e, stopped := false }

/-- A full per-symbol step: emit one bit, reload `sample_count` with
`DAC_SAMPLESPERBIT`, then the DDS step. -/
def dacSymbol (af : AfskTx) : DacOut :=
  dacDds { (dacEmit af).1 with sample_count := DAC_SAMPLESPERBIT } (some (dacEmit af).2)

/-- Function `afsk_dac_isr` from `afsk.c`: at the start of a symbol
(`sample_count == 0`) fetch a new byte when `tx_bit == 0` (stopping the
DAC interrupt and returning 0 when transmission is over), then emit one
bit with NRZI and stuffing; on every call run the DDS step. -/
def afsk_dac_isr (af : AfskTx) : DacOut :=
  if af.sample_count = 0 then
    if af.tx_bit = 0 then
      if (dacFetch af).2 = true then
        { af := { (dacFetch af).1 with sending := false, dac_irq_on := false },
          out := 0, emitted := none, stopped := true }
      else
        dacSymbol { (dacFetch af).1 with tx_bit := 0x01 }
    else
      dacSymbol af
  else
    dacDds af none

/-- Iterate the DAC callback `n` times, collecting the (ghost) emitted
logical bits in order. -/
def runDac : Nat → AfskTx → AfskTx × List (Bool × Bool)
  | 0, af => (af, [])
  | n + 1, af =>
    let r := afsk_dac_isr af
    let rest := runDac n r.af
    (rest.1, r.emitted.toList ++ rest.2)

/-- The modulator state of scenario C2: zero-initialized context, the
single byte `0x41` written, TX started with `preamble_len = 1` and
`trailer_len = 1`. -/
def afskC2Start : AfskTx :=
  { tx_fifo := [0x41], sample_count := 0, tx_bit := 0, curr_out := 0, stuff_cnt := 0,
    bit_stuff := false, preamble_len := 1, trailer_len := 1, sending := true,
    dac_irq_on := true, phase_acc := 0, phase_inc := MARK_INC }

/-- The expected logical bit pattern of C2: flag, `0x41` LSB-first,
flag. -/
def bitsC2 : List Nat :=
  [0, 1, 1, 1, 1, 1, 1, 0, 1, 0, 0, 0, 0, 0, 1, 0, 0, 1, 1, 1, 1, 1, 1, 0]

set_option maxRecDepth 100000 in
set_option maxHeartbeats 1000000 in
/-- C2: starting from `preamble_len = 1`, `trailer_len = 1` and payload
`0x41`, the DAC callback's per-symbol steps emit exactly the logical
bits `01111110 10000010 01111110` (LSB first per byte), none of them a
stuffed zero, and the 193rd call stops transmission. -/
theorem dac_frame_c2 :
    (runDac 193 afskC2Start).2 = bitsC2.map (fun b => ((false : Bool), b == 1)) ∧
    (runDac 193 afskC2Start).1.sending = false := by
  decide

set_option maxRecDepth 100000 in
set_option maxHeartbeats 1000000 in
/-- C6 counterexample: the state reached from `afskC2Start` after 49
DAC callbacks — the sixth `1` of the unstuffed preamble flag — has
`stuff_cnt = 6`, outside the claimed range `[0..5]` (and call 49 maps a
reachable state with `stuff_cnt = 5` to one with `stuff_cnt = 6`). -/
theorem stuffcnt_claimC6_false : ¬(runDac 49 afskC2Start).1.stuff_cnt ≤ 5 := by
  decide

theorem dacEmit_inv (af : AfskTx) (h : af.bit_stuff = true → af.stuff_cnt ≤ 5) :
    (dacEmit af).1.bit_stuff = true → (dacEmit af).1.stuff_cnt ≤ 5 := by
  unfold dacEmit
  split_ifs with h1 h2
  · intro hb
    dsimp only at hb ⊢
    omega
  · intro hb
    dsimp only at hb ⊢
    have hle := h hb
    have hlt : ¬5 ≤ af.stuff_cnt := fun hc => h1 ⟨hb, hc⟩
    omega
  · intro hb
    dsimp only
    omega

set_option maxHeartbeats 2000000 in
theorem dacFetch_inv (af : AfskTx) (h : af.bit_stuff = true → af.stuff_cnt ≤ 5) :
    (dacFetch af).1.bit_stuff = true → (dacFetch af).1.stuff_cnt ≤ 5 := by
  obtain ⟨fifo, sc, tb, co, cnt, bs, pl, tl, sd, irq, pa, pi⟩ := af
  rcases fifo with _ | ⟨b, rest⟩ <;> rcases bs <;>
    simp only [dacFetch] <;> split_ifs <;> (try cases rest) <;> simp_all

theorem dacSymbol_inv (af : AfskTx) (h : af.bit_stuff = true → af.stuff_cnt ≤ 5) :
    (dacSymbol af).af.bit_stuff = true → (dacSymbol af).af.stuff_cnt ≤ 5 := by
  unfold dacSymbol dacDds
  dsimp only
  exact dacEmit_inv af h

/-- C6 (amended): the unconditional bound `stuff_cnt ∈ [0..5]` fails —
while an unescaped flag or reset byte is sent with `bit_stuff` false,
the counter climbs past 5 (see the counterexample).  What every DAC
callback does preserve is the invariant `bit_stuff = true →
stuff_cnt ≤ 5`: whenever stuffing is enabled the counter is within
`[0..5]`. -/
theorem stuffcnt_inv_c6_amended (af : AfskTx)
    (h : af.bit_stuff = true → af.stuff_cnt ≤ 5) :
    (afsk_dac_isr af).af.bit_stuff = true → (afsk_dac_isr af).af.stuff_cnt ≤ 5 := by
  unfold afsk_dac_isr
  split_ifs with h1 h2 h3
  · intro hb
    dsimp only at hb ⊢
    exact dacFetch_inv af h hb
  · exact dacSymbol_inv _ (fun hb => dacFetch_inv af h (by simpa using hb))
  · exact dacSymbol_inv af h
  · intro hb
    dsimp only [dacDds] at hb ⊢
    exact h hb

/-- Concrete modulator state for the C6 witness: mid-way through the
data byte `0x41` with stuffing enabled. -/
def afW6 : AfskTx :=
  { tx_fifo := [], sample_count := 0, tx_bit := 2, curr_out := 0x41, stuff_cnt := 1,
    bit_stuff := true, preamble_len := 0, trailer_len := 1, sending := true,
    dac_irq_on := true, phase_acc := 0, phase_inc := MARK_INC }

/-- Witness for the amended C6 invariant at a concrete state with
stuffing enabled. -/
theorem stuffcnt_inv_c6_amended_witness :
    (afsk_dac_isr afW6).af.stuff_cnt ≤ 5 :=
  stuffcnt_inv_c6_amended afW6 (by decide) (by decide)

/-- C7: a TX start while `sending` is already true perturbs none of
`phase_inc`, `phase_acc`, `stuff_cnt`, `sending`, `preamble_len`; and
every call (sending or not) re-arms `trailer_len` to the configured
trailer length `DIV_ROUND(cfgTrailer * BITRATE, 8000)`. -/
theorem txStart_idempotent_c7 (cfgPreamble cfgTrailer : Nat) (af : AfskTx) :
    (afsk_txStart cfgPreamble cfgTrailer af).trailer_len =
      DIV_ROUND (cfgTrailer * BITRATE) 8000 ∧
    (afsk_txStart cfgPreamble cfgTrailer { af with sending := true }).phase_inc =
      af.phase_inc ∧
    (afsk_txStart cfgPreamble cfgTrailer { af with sending := true }).phase_acc =
      af.phase_acc ∧
    (afsk_txStart cfgPreamble cfgTrailer { af with sending := true }).stuff_cnt =
      af.stuff_cnt ∧
    (afsk_txStart cfgPreamble cfgTrailer { af with sending := true }).sending = true ∧
    (afsk_txStart cfgPreamble cfgTrailer { af with sending := true }).preamble_len =
      af.preamble_len := by
  unfold afsk_txStart
  split_ifs <;> simp_all

/-- A modulator state at a symbol boundary: `sample_count = 0` and
`tx_bit = 0` (a fresh byte is due), preamble exhausted, with the given
TX queue contents. -/
def atSymbolBoundary (af : AfskTx) (fifo : List Nat) : AfskTx :=
  { af with
    sample_count := 0, tx_bit := 0, preamble_len := 0, tx_fifo := fifo }

/-- C8: at a symbol boundary (`sample_count = 0`, `tx_bit = 0`,
preamble exhausted), when the fetched byte is `AX25_ESC`: with an empty
queue behind it the callback stops the DAC interrupt, clears `sending`
and returns the idle sample 0; with a non-empty queue it pops the
following byte into `curr_out` and transmits it with bit stuffing
enabled. -/
theorem dac_escape_c8 (af : AfskTx) (b : Nat) (rest : List Nat) :
    ((afsk_dac_isr (atSymbolBoundary af [AX25_ESC])).stopped = true ∧
     (afsk_dac_isr (atSymbolBoundary af [AX25_ESC])).af.sending = false ∧
     (afsk_dac_isr (atSymbolBoundary af [AX25_ESC])).af.dac_irq_on = false ∧
     (afsk_dac_isr (atSymbolBoundary af [AX25_ESC])).out = 0) ∧
    ((afsk_dac_isr (atSymbolBoundary af (AX25_ESC :: b :: rest))).af.curr_out = b ∧
     (afsk_dac_isr (atSymbolBoundary af (AX25_ESC :: b :: rest))).af.bit_stuff = true ∧
     (afsk_dac_isr (atSymbolBoundary af (AX25_ESC :: b :: rest))).af.tx_fifo = rest ∧
     (afsk_dac_isr (atSymbolBoundary af (AX25_ESC :: b :: rest))).stopped = false) := by
  obtain ⟨fifo, sc, tb, co, cnt, bs, pl, tl, sd, irq, pa, pi⟩ := af
  unfold atSymbolBoundary afsk_dac_isr dacSymbol dacFetch dacEmit dacDds
  split_ifs <;> simp_all <;> split_ifs <;> simp_all

end Afsk1200
